import Mathlib

/-!
Verification development for the Cosmos transaction fetcher
(`fetchAllTransactions.js`, `fixedRPCFetcher.js`, `fetchWithREST.js`).

The JavaScript source is shallowly embedded: JS objects whose fields may be
absent become structures of `Option` fields, JS truthiness of strings
(`""` is falsy) is modelled by `jsStr`, network interaction is modelled by a
`service : Nat → PageResponse` function giving the response of each page
request, and the (bounded) `while` loops walk an explicit fuel parameter.
`JSON.parse` of a decoded transaction payload is an external library call and
is passed in as a parameter `jp : String → Option TxData`; `Buffer.from(s,
'base64').toString()` is embedded concretely (`base64DecodeBytes`,
`bytesToString`).
-/

/-- A JSON-ish value as it flows through amount fields of the source:
either a plain string, an array, a `{denom, amount}` coin object in the
field order used by decoded messages, an `{amount, denom}` object in the
field order produced by `parseAmount`, or the `{denom: msg.denom, amount:
msg.amount}` fallback object built in the IBC branch of `extractTransfers`
(whose fields may be absent).  The field order is tracked because the source
compares such values through `JSON.stringify`. -/
inductive JsV where
  | str (s : String)
  | arr (l : List JsV)
  | coinDA (denom amount : String)
  | coinAD (amount denom : String)
  | tokenObj (denom : Option String) (amount : Option JsV)
deriving Repr

mutual

/-- `JSON.stringify` on a `JsV` (string escaping is not modelled; the
development only applies it to strings free of `"` and `\`). Absent fields
of `tokenObj` are skipped, as `JSON.stringify` skips `undefined` fields. -/
def stringifyV : JsV → String
  | .str s => "\"" ++ s ++ "\""
  | .arr l => "[" ++ stringifyL l ++ "]"
  | .coinDA d a => "\x7b\"denom\":\"" ++ d ++ "\",\"amount\":\"" ++ a ++ "\"\x7d"
  | .coinAD a d => "\x7b\"amount\":\"" ++ a ++ "\",\"denom\":\"" ++ d ++ "\"\x7d"
  | .tokenObj d a =>
      let p1 : List String := match d with
        | some s => ["\"denom\":\"" ++ s ++ "\""]
        | none => []
      let p2 : List String := match a with
        | some v => ["\"amount\":" ++ stringifyV v]
        | none => []
      "\x7b" ++ String.intercalate "," (p1 ++ p2) ++ "\x7d"

/-- Comma-separated `JSON.stringify` of the elements of an array. -/
def stringifyL : List JsV → String
  | [] => ""
  | [v] => stringifyV v
  | v :: w :: vs => stringifyV v ++ "," ++ stringifyL (w :: vs)

end

/-- `JSON.stringify(x)` where `x` may be `undefined`:
`JSON.stringify(undefined)` is `undefined`, not a string. -/
def stringifyOpt : Option JsV → Option String
  | none => none
  | some v => some (stringifyV v)

/-- JS truthiness of a possibly-absent string: `undefined`, `null` and `""`
are falsy, every other string is truthy. -/
def jsStr : Option String → Option String
  | some s => if s = "" then none else some s
  | none => none

/-- `a || b` for possibly-absent strings: the value of `a` when truthy,
otherwise the raw value of `b` (which may itself be `""` or absent). -/
def jsOrS (a b : Option String) : Option String :=
  match jsStr a with
  | some s => some s
  | none => b

/-- JS truthiness of a possibly-absent `JsV`: absent values and the empty
string are falsy; arrays and objects (even empty) are truthy. -/
def jsVal : Option JsV → Option JsV
  | some (.str s) => if s = "" then none else some (.str s)
  | some v => some v
  | none => none

/-- `a || b` for possibly-absent `JsV` values. -/
def jsOrV (a b : Option JsV) : Option JsV :=
  match jsVal a with
  | some v => some v
  | none => b

/-- Does the pattern match at the head of the text? (helper for the JS
`String.prototype.includes` used in message-type dispatch). -/
def chHead : List Char → List Char → Bool
  | [], _ => true
  | _ :: _, [] => false
  | p :: ps, c :: cs => p == c && chHead ps cs

/-- Does the pattern occur anywhere in the text? -/
def chSub : List Char → List Char → Bool
  | pat, [] => pat.isEmpty
  | pat, c :: cs => chHead pat (c :: cs) || chSub pat cs

/-- `s.includes(pat)` of JS. -/
def strHas (s pat : String) : Bool := chSub pat.data s.data

/-- Value of a character in the base64 alphabet, `none` for every other
character (`=` padding, whitespace, `-`, …), which Node's forgiving base64
decoder skips. -/
def base64CharVal (c : Char) : Option Nat :=
  if 'A' ≤ c ∧ c ≤ 'Z' then some (c.toNat - 65)
  else if 'a' ≤ c ∧ c ≤ 'z' then some (c.toNat - 97 + 26)
  else if '0' ≤ c ∧ c ≤ '9' then some (c.toNat - 48 + 52)
  else if c = '+' then some 62
  else if c = '/' then some 63
  else none

/-- Bit-accumulator loop of base64 decoding: consume 6-bit values, emit a
byte whenever at least 8 bits are available. -/
def b64Acc : List Nat → Nat → Nat → List Nat
  | [], _, _ => []
  | v :: vs, acc, bits =>
    let acc2 := acc * 64 + v
    let bits2 := bits + 6
    if 8 ≤ bits2 then
      (acc2 / 2 ^ (bits2 - 8)) % 256 :: b64Acc vs (acc2 % 2 ^ (bits2 - 8)) (bits2 - 8)
    else
      b64Acc vs acc2 bits2

/-- `Buffer.from(s, 'base64')`: characters outside the base64 alphabet are
skipped, remaining 6-bit groups are packed into bytes, and a trailing group
of fewer than 8 bits is dropped. -/
def base64DecodeBytes (s : String) : List Nat :=
  b64Acc (s.data.filterMap base64CharVal) 0 0

/-- `buf.toString()` on decoded bytes.  ASCII bytes map to themselves; any
byte ≥ 0x80 is represented by U+FFFD.  (Node decodes such bytes as UTF-8,
possibly merging several into one non-ASCII character or U+FFFD; either way
the result contains a character outside printable ASCII, which is all the
source ever observes of it through its `/^[\x20-\x7E]+$/` filter.) -/
def bytesToString (bs : List Nat) : String :=
  String.mk (bs.map fun b => if b < 128 then Char.ofNat b else '�')

/-- The `/^[\x20-\x7E]+$/` test of the source: non-empty and every character
in the printable-ASCII range. -/
def printableAscii (s : String) : Bool :=
  !s.data.isEmpty && s.data.all fun c => decide (32 ≤ c.toNat) && decide (c.toNat ≤ 126)

/-- One event attribute `{key, value, index}`; `key`/`value` are absent or
strings (the only shapes the embedded code paths distinguish). -/
structure Attr where
  key : Option String
  value : Option String
  index : Option Bool
deriving Repr

/-- One event `{type, attributes}`. -/
structure Event where
  type : Option String
  attributes : Option (List Attr)
deriving Repr

/-- A result wrapper (`tx_result` / `result` / `TxResult`): the fields the
source reads from it. -/
structure ResultW where
  events : Option (List Event)
  code : Option Nat
deriving Repr

/-- One input/output entry of a multi-send message. -/
structure IOEntry where
  address : Option String
  coins : Option JsV
  amount : Option JsV
deriving Repr

/-- One decoded message: every alternate field name the source probes.
`@type` is embedded as `atType`; the JS fields `from`/`to` are embedded as
`fromF`/`toF` (`from` is reserved in Lean). -/
structure Msg where
  atType : Option String
  type : Option String
  from_address : Option String
  sender : Option String
  fromF : Option String
  to_address : Option String
  receiver : Option String
  toF : Option String
  amount : Option JsV
  value : Option JsV
  token : Option JsV
  denom : Option String
  source_channel : Option String
  sourceChannel : Option String
  inputs : Option (List IOEntry)
  outputs : Option (List IOEntry)
deriving Repr

/-- `tx.body` of a decoded payload. -/
structure TxBody where
  messages : Option (List Msg)
  memo : Option String
deriving Repr

/-- `auth_info` of a decoded payload. -/
structure AuthInfo where
  fee : Option JsV
deriving Repr

/-- A decoded transaction payload: the fields `parseTransaction` probes
(`body.messages`/`msg`, `body.memo`/`memo`, `auth_info.fee`/`fee`). -/
structure TxData where
  body : Option TxBody
  msg : Option (List Msg)
  memo : Option String
  auth_info : Option AuthInfo
  fee : Option JsV
deriving Repr

/-- The `tx` field of a raw record: either a (base64) string or an
already-structured payload. -/
inductive TxPayload where
  | str (s : String)
  | data (d : TxData)
deriving Repr

/-- One raw transaction record as returned by `tx_search`: the top-level
fields the source reads, all possibly absent. -/
structure RawTx where
  hash : Option String
  txhash : Option String
  height : Option String
  tx : Option TxPayload
  tx_result : Option ResultW
  result : Option ResultW
  TxResult : Option ResultW
deriving Repr

/-- The hash key `tx.hash || tx.txhash` read by `deduplicateTransactions`,
`none` when the resulting value is falsy (both fields absent or empty). -/
def rawHash (tx : RawTx) : Option String :=
  jsStr (jsOrS tx.hash tx.txhash)

/-- The loop body of `deduplicateTransactions`: walk the records keeping the
first record of each truthy hash; `seen` is the key set of the insertion-
ordered `Map`.  Records whose hash is falsy are skipped. -/
def dedupGo : List RawTx → List String → List RawTx
  | [], _ => []
  | tx :: rest, seen =>
    match rawHash tx with
    | none => dedupGo rest seen
    | some h => if h ∈ seen then dedupGo rest seen else tx :: dedupGo rest (h :: seen)

/-- `deduplicateTransactions` of `fetchAllTransactions.js` (the method in
`fixedRPCFetcher.js` is verbatim identical): first occurrence per hash wins,
hashless records are dropped, output in insertion order of the `Map`. -/
def deduplicateTransactions (transactions : List RawTx) : List RawTx :=
  dedupGo transactions []

/-- The decoded value string built inside the attribute decoder:
`attr.value ? Buffer.from(attr.value, 'base64').toString() : ''` — a falsy
value (absent or `""`) yields `''`. -/
def decodedValue : Option String → String
  | some v => if v = "" then "" else bytesToString (base64DecodeBytes v)
  | none => ""

/-- The per-attribute base64 decoding step of `parseTransaction`: when the
key is a truthy string not containing the space character `' '`, decode key
and value; keep the decoded pair only when the decoded key is truthy and
matches `/^[\x20-\x7E]+$/`, otherwise return the attribute unchanged. -/
def decodeAttr (a : Attr) : Attr :=
  match a.key with
  | some k =>
    if k ≠ "" ∧ ¬ (' ' ∈ k.data) then
      let dk := bytesToString (base64DecodeBytes k)
      if dk ≠ "" ∧ printableAscii dk = true then
        ⟨some dk, some (decodedValue a.value), a.index⟩
      else a
    else a
  | none => a

/-- Decode the attribute list of one event; events without an `attributes`
array are left alone. -/
def decodeEvent (e : Event) : Event :=
  match e.attributes with
  | some attrs => ⟨e.type, some (attrs.map decodeAttr)⟩
  | none => e

/-- Decode every event held by a result wrapper (the effect, on the raw
record, of the in-place `event.attributes = …` assignment). -/
def decodeWrapper (w : ResultW) : ResultW :=
  ⟨w.events.map (fun es => es.map decodeEvent), w.code⟩

/-- `tx.tx_result || tx.result || tx.TxResult || {}`. -/
def rawResultW (tx : RawTx) : ResultW :=
  ((tx.tx_result.orElse fun _ => tx.result).orElse fun _ => tx.TxResult).getD ⟨none, none⟩

/-- The state of the raw record after `parseTransaction` returns: the event
objects of the first present result wrapper have had their `attributes`
replaced in place by the decoded attributes (`event.attributes = …` inside
the `.map` writes through the shared references); everything else is
untouched. -/
def mutatedRaw (tx : RawTx) : RawTx :=
  match tx.tx_result with
  | some w => { tx with tx_result := some (decodeWrapper w) }
  | none =>
    match tx.result with
    | some w => { tx with result := some (decodeWrapper w) }
    | none =>
      match tx.TxResult with
      | some w => { tx with TxResult := some (decodeWrapper w) }
      | none => tx

/-- The canonical parsed transaction built by `parseTransaction`. -/
structure Parsed where
  hash : Option String
  height : Option String
  timestamp : Option String
  messages : List Msg
  events : List Event
  fee : Option JsV
  memo : Option String
  success : Bool
  code : Nat
deriving Repr

/-- Messages/memo/fee extraction from a decoded payload object:
`txData.body?.messages || txData.msg || []` (an empty `messages` array is
truthy and is kept), `txData.body?.memo || txData.memo || ''` (an empty memo
is falsy and falls through), `txData.auth_info?.fee || txData.fee || null`. -/
def extractFromTxData (d : TxData) : List Msg × Option String × Option JsV :=
  let msgs := ((d.body.bind TxBody.messages).orElse fun _ => d.msg).getD []
  let memo := some (((jsStr (d.body.bind TxBody.memo)).orElse fun _ => jsStr d.memo).getD "")
  let fee := (jsVal (d.auth_info.bind AuthInfo.fee)).orElse fun _ => jsVal d.fee
  (msgs, memo, fee)

/-- `parseTransaction` of `fetchAllTransactions.js`.  `jp` embeds
`JSON.parse` on the base64-decoded payload (`none` = the parse threw).
Returns the parsed value together with the raw record as the call leaves it
(the attribute decoding mutates the record's events, see `mutatedRaw`). -/
def parseTransaction (jp : String → Option TxData) (tx : RawTx) : Parsed × RawTx :=
  let body : List Msg × Option String × Option JsV :=
    match tx.tx with
    | none => ([], none, none)
    | some (.data d) => extractFromTxData d
    | some (.str s) =>
      match jp (bytesToString (base64DecodeBytes s)) with
      | some d => extractFromTxData d
      | none => ([], some "", none)
  let w := rawResultW tx
  let events := (w.events.getD []).map decodeEvent
  let code := w.code.getD 0
  let ts := events.foldl
    (fun acc e =>
      if e.type = some "tx" ∧ e.attributes.isSome = true then
        match (e.attributes.getD []).find? (fun a => decide (a.key = some "timestamp")) with
        | some a => a.value
        | none => acc
      else acc)
    none
  (⟨jsOrS tx.hash tx.txhash, tx.height, ts, body.1, events, body.2.2, body.2.1,
    decide (code = 0), code⟩,
   mutatedRaw tx)

/-- One transfer record produced by `extractTransfers`.  The JS fields
`from`/`to` are embedded as `fromA`/`toA` (`from` is reserved in Lean);
`sourceChannel` is the `source_channel` field present only on IBC
transfers. -/
structure Transfer where
  type : String
  fromA : String
  toA : String
  amount : Option JsV
  sourceChannel : Option String
  direction : String
deriving Repr

/-- `msg['@type'] || msg.type || ''`. -/
def msgTypeOf (m : Msg) : String :=
  (jsStr (jsOrS m.atType m.type)).getD ""

/-- The bank-send branch of `extractTransfers`' message loop. -/
def transferOfBank (m : Msg) (target : String) : List Transfer :=
  let fromV := jsOrS (jsOrS m.from_address m.sender) m.fromF
  let toV := jsOrS (jsOrS m.to_address m.receiver) m.toF
  let amount := jsOrV (jsOrV m.amount m.value) (some (.arr []))
  match jsStr fromV, jsStr toV with
  | some f, some t =>
    [⟨"bank_send", f, t, amount, none,
      if f = target then "sent" else if t = target then "received" else "related"⟩]
  | _, _ => []

/-- The IBC-transfer branch of `extractTransfers`' message loop. -/
def transferOfIbc (m : Msg) (target : String) : List Transfer :=
  let senderV := jsOrS m.sender m.from_address
  let receiverV := jsOrS m.receiver m.to_address
  let token := (jsVal m.token).getD (.tokenObj m.denom m.amount)
  match jsStr senderV with
  | some s =>
    [⟨"ibc_transfer", s, (jsStr receiverV).getD "ibc-destination", some (.arr [token]),
      jsOrS m.source_channel m.sourceChannel,
      if s = target then "sent"
      else if receiverV = some target then "received" else "related"⟩]
  | none => []

/-- The multi-send branch of `extractTransfers`' message loop. -/
def transfersOfMulti (m : Msg) (target : String) : List Transfer :=
  let ins := (m.inputs.getD []).filterMap fun i =>
    if i.address = some target then
      some ⟨"multisend_input", target, "multiple", jsOrV i.coins i.amount, none, "sent"⟩
    else none
  let outs := (m.outputs.getD []).filterMap fun o =>
    if o.address = some target then
      some ⟨"multisend_output", "multiple", target, jsOrV o.coins o.amount, none, "received"⟩
    else none
  ins ++ outs

/-- Message-type dispatch of `extractTransfers`: substring tests on the
type tag, in source order (so a type containing `bank` — including
`/cosmos.bank.v1beta1.MsgMultiSend` — takes the bank branch first). -/
def msgTransfers (m : Msg) (target : String) : List Transfer :=
  let t := msgTypeOf m
  if strHas t "MsgSend" || strHas t "bank" then transferOfBank m target
  else if strHas t "MsgTransfer" || strHas t "ibc" then transferOfIbc m target
  else if strHas t "MsgMultiSend" then transfersOfMulti m target
  else []

/-- `getAttrValue` closure of `extractTransfers`: the value of the first
attribute whose key strictly equals the given key, `null`/`undefined`
otherwise. -/
def getAttrValue (attrs : List Attr) (key : String) : Option String :=
  match attrs.find? (fun a => decide (a.key = some key)) with
  | some a => a.value
  | none => none

/-- The digit-string ⇒ number reading used for `parseInt` on heights and
total counts (the source only ever feeds it decimal digit strings). -/
def digitsVal (l : List Char) : Nat :=
  l.foldl (fun n c => n * 10 + (c.toNat - 48)) 0

/-- `parseInt(s)` restricted to leading decimal digits; `none` plays NaN. -/
def jsParseInt (s : String) : Option Nat :=
  let ds := s.data.takeWhile Char.isDigit
  if ds = [] then none else some (digitsVal ds)

/-- `s.trim()` (whitespace here is the ASCII class; JS also strips some
Unicode spaces, which never occur in the amount strings at issue). -/
def jsTrim (s : String) : String :=
  String.mk (((s.data.dropWhile Char.isWhitespace).reverse.dropWhile Char.isWhitespace).reverse)

/-- `s.split(',')` on the character list: every `,` ends a group. -/
def splitComma : List Char → List (List Char)
  | [] => [[]]
  | c :: cs =>
    if c = ',' then [] :: splitComma cs
    else
      match splitComma cs with
      | [] => [[c]]
      | g :: gs => (c :: g) :: gs

/-- A line-terminator character, which `.` in a JS regex does not match. -/
def lineTerm (c : Char) : Bool :=
  c = '\n' || c = '\r' || c = ' ' || c = ' '

/-- One segment of `parseAmount`: trim, then match `/^(\d+)(.+)$/`.
The regex backtracks, so the match succeeds exactly when the trimmed
segment has ≥ 2 characters, starts with a digit and contains no line
terminator; the capture split is then the longest digit run that still
leaves a non-empty remainder (an all-digit segment like `1000` matches as
amount `100`, denom `0`).  Unmatched segments are passed through as the raw
trimmed string. -/
def parseAmountSeg (seg : String) : JsV :=
  let t := jsTrim seg
  let n := t.length
  let d := (t.data.takeWhile Char.isDigit).length
  if 2 ≤ n ∧ 1 ≤ d ∧ t.data.all (fun c => !lineTerm c) then
    .coinAD (String.mk (t.data.take (min d (n - 1)))) (String.mk (t.data.drop (min d (n - 1))))
  else .str t

/-- `parseAmount` of `fetchAllTransactions.js`, at its call sites (which
always pass a truthy attribute-value string; the `Array.isArray`
pass-through branch is unreachable from them): falsy input gives `[]`,
otherwise split on `,` and parse each segment. -/
def parseAmount (amountStr : String) : List JsV :=
  if amountStr = "" then []
  else (splitComma amountStr.data).map fun seg => parseAmountSeg (String.mk seg)

/-- One step of `extractTransfers`' event loop on a `transfer` /
`coin_spent` / `coin_received` event (other events are skipped by the
caller).  `none` embeds the `TypeError` the source throws when such an
event has no `attributes` array (`event.attributes.find` on `undefined`). -/
def eventTransfers (target : String) (acc : List Transfer) (e : Event) : Option (List Transfer) :=
  if e.type = some "transfer" ∨ e.type = some "coin_spent" ∨ e.type = some "coin_received" then
    match e.attributes with
    | none => none
    | some attrs =>
      if e.type = some "transfer" then
        match jsStr (getAttrValue attrs "sender"), jsStr (getAttrValue attrs "recipient"),
              jsStr (getAttrValue attrs "amount") with
        | some s, some r, some amt =>
          let isDuplicate := acc.any fun t =>
            decide (t.fromA = s) && decide (t.toA = r) &&
            decide (stringifyOpt t.amount = some (stringifyV (.str amt)))
          if isDuplicate then some acc
          else some (acc ++ [⟨"transfer_event", s, r, some (.arr (parseAmount amt)), none,
            if s = target then "sent" else if r = target then "received" else "related"⟩])
        | _, _, _ => some acc
      else if e.type = some "coin_spent" then
        match jsStr (getAttrValue attrs "amount") with
        | some amt =>
          if getAttrValue attrs "spender" = some target then
            some (acc ++ [⟨"coin_spent", target, "unknown", some (.arr (parseAmount amt)), none,
              "sent"⟩])
          else some acc
        | none => some acc
      else
        match jsStr (getAttrValue attrs "amount") with
        | some amt =>
          if getAttrValue attrs "receiver" = some target then
            some (acc ++ [⟨"coin_received", "unknown", target, some (.arr (parseAmount amt)), none,
              "received"⟩])
          else some acc
        | none => some acc
  else some acc

/-- `extractTransfers` of `fetchAllTransactions.js`: parse the record, walk
the messages appending message-level transfers, then walk the events; the
`transfer`-event branch consults the transfers accumulated so far through
its `isDuplicate` check.  `none` embeds the `TypeError` of `eventTransfers`. -/
def extractTransfers (jp : String → Option TxData) (tx : RawTx) (targetAddress : String) :
    Option (List Transfer) :=
  let parsed := (parseTransaction jp tx).1
  let msgT := parsed.messages.foldl (fun acc m => acc ++ msgTransfers m targetAddress) []
  parsed.events.foldlM (fun acc e => eventTransfers targetAddress acc e) msgT

/-- The response one `tx_search` page request resolves to, as
`queryTxsByEvent` discriminates it: a network/HTTP failure that exhausted
`fetchWithRetry` (the fetch throws), an `{error: …}` envelope, an
unrecognized envelope (warned about, read as zero records), or a success
envelope in wrapped (`response.result`) or unwrapped (`response.txs`)
form carrying the records and the reported `total_count` string. -/
inductive PageResponse where
  | netFail
  | errorEnv
  | unknownEnv
  | wrapped (txs : List RawTx) (totalCount : String)
  | unwrapped (txs : List RawTx) (totalCount : String)

/-- The `while (hasMore)` pagination loop of `queryTxsByEvent`, returning
the collected records together with the number of page requests issued.
A thrown fetch, an error envelope or a zero-record page stops the loop
after that request; a full page (exactly `PAGE_SIZE` = 100 records) keeps
it going; a short page stops it.  The reported `total_count` is never
consulted.  `fuel` bounds the walk (the source loop is unbounded). -/
def queryGo (service : Nat → PageResponse) : Nat → Nat → List RawTx × Nat
  | 0, _ => ([], 0)
  | fuel + 1, page =>
    match service page with
    | .netFail => ([], 1)
    | .errorEnv => ([], 1)
    | .unknownEnv => ([], 1)
    | .wrapped txs _ | .unwrapped txs _ =>
      if txs.length = 0 then ([], 1)
      else if txs.length = 100 then
        let r := queryGo service fuel (page + 1)
        (txs ++ r.1, r.2 + 1)
      else (txs, 1)

/-- `queryTxsByEvent` against a simulated service, starting at page 1. -/
def queryTxsByEvent (service : Nat → PageResponse) (fuel : Nat) : List RawTx × Nat :=
  queryGo service fuel 1

/-- The records (first component) a query contributes. -/
def queryRecords (service : Nat → PageResponse) (fuel : Nat) : List RawTx :=
  (queryGo service fuel 1).1

/-- Sort key of `uniqueTxs.sort((a, b) => parseInt(b.height) - parseInt(a.height))`;
a missing or non-numeric height is keyed 0 (the engine-defined order under a
NaN comparator is not modelled — only permutation facts are stated). -/
def heightKey (tx : RawTx) : Nat :=
  match tx.height with
  | some s => (jsParseInt s).getD 0
  | none => 0

/-- Stable descending insertion for the height sort. -/
def insertByHeightDesc (x : RawTx) : List RawTx → List RawTx
  | [] => [x]
  | y :: ys => if heightKey y < heightKey x then x :: y :: ys else y :: insertByHeightDesc x ys

/-- The `.sort(…)` by height descending. -/
def sortByHeightDesc : List RawTx → List RawTx
  | [] => []
  | x :: xs => insertByHeightDesc x (sortByHeightDesc xs)

/-- `fetchAllTransactions` over its configured queries, each embedded as a
simulated service: run every query (`queryTxsByEvent` never rejects — it
swallows its failures and returns what it has, so the per-query
`try/catch` never fires), concatenate, deduplicate by hash, sort by height
descending. -/
def fetchAllTransactions (services : List (Nat → PageResponse)) (fuel : Nat) : List RawTx :=
  sortByHeightDesc (deduplicateTransactions
    ((services.map fun s => queryRecords s fuel).flatten))

/-- A non-null `txSearch` result as `fetchWalletTransactions` of
`fixedRPCFetcher.js` reads it: the `txs` array (possibly absent) and the
`total_count` string (possibly absent). -/
structure FixedPage where
  txs : Option (List RawTx)
  total_count : Option String

/-- `Math.ceil(parseInt(result.total_count) / 100)` as `fetchWalletTransactions`
computes it; a non-numeric or absent total gives NaN, and since every
`page < NaN` comparison is false it is modelled as a total-page count of 0. -/
def fixedTotalPages (pr : FixedPage) : Nat :=
  match pr.total_count.bind jsParseInt with
  | some n => (n + 99) / 100
  | none => 0

/-- The pagination loop of `fetchWalletTransactions` (`fixedRPCFetcher.js`)
for one query: a null result, an absent `txs` or an empty page stops it;
otherwise it continues exactly when the page is full (100 records) and the
page number is still below `Math.ceil(parseInt(total_count) / 100)` (a
non-numeric total gives NaN, every `<` against it is false, modelled by
total-page count 0).  Returns records and the number of page requests. -/
def fixedPagesGo (service : Nat → Option FixedPage) : Nat → Nat → List RawTx × Nat
  | 0, _ => ([], 0)
  | fuel + 1, page =>
    match service page with
    | none => ([], 1)
    | some pr =>
      match pr.txs with
      | none => ([], 1)
      | some txs =>
        if txs.length = 0 then ([], 1)
        else
          if txs.length = 100 ∧ page < fixedTotalPages pr then
            let r := fixedPagesGo service fuel (page + 1)
            (txs ++ r.1, r.2 + 1)
          else (txs, 1)

/-- A `JSON.parse` model that always fails (malformed payloads). -/
def jsonParseNone : String → Option TxData := fun _ => none

/-- A record carrying only a hash (fixture for pagination scenarios). -/
def blankTx (h : String) : RawTx :=
  ⟨some h, none, none, none, none, none, none⟩

/-- A simulated `tx_search` service holding three pages of records (the
spec's `total_count = 250` scenario); pages past the third serve `junk`,
which a terminating executor must never request. -/
def pagedService (r1 r2 r3 junk : List RawTx) (total : String) : Nat → PageResponse :=
  fun page =>
    if page = 1 then .wrapped r1 total
    else if page = 2 then .wrapped r2 total
    else if page = 3 then .wrapped r3 total
    else .wrapped junk total

/-- The keys of the insertion-ordered `Map` after `deduplicateTransactions`
has walked a list of records, starting from key set `s` (proof support for
the dedup lemmas). -/
def seenAfter : List RawTx → List String → List String
  | [], s => s
  | tx :: rest, s =>
    match rawHash tx with
    | none => seenAfter rest s
    | some h => if h ∈ s then seenAfter rest s else seenAfter rest (h :: s)

/-- Spec-side classifier for the Amount-list invariant: is a value a
`{denom, amount}` pair (in either field order)? -/
def isDenomAmountPair : JsV → Bool
  | .coinDA _ _ => true
  | .coinAD _ _ => true
  | _ => false

/-- The key of the first attribute of the first event of the `tx_result`
wrapper: the observation separating a raw record from its mutated form. -/
def attrKeyObs (tx : RawTx) : Option String :=
  tx.tx_result.bind fun w => w.events.bind fun es => es.head?.bind fun e =>
    e.attributes.bind fun attrs => attrs.head?.bind fun a => a.key

/-- The same observation on a parsed transaction's event list. -/
def parsedKeyObs (p : Parsed) : Option String :=
  p.events.head?.bind fun e =>
    e.attributes.bind fun attrs => attrs.head?.bind fun a => a.key

/-- Fixture: a record with hash `h1` and height 3. -/
def wA : RawTx := ⟨some "h1", none, some "3", none, none, none, none⟩

/-- Fixture: a different record carrying the same hash `h1` (height 7). -/
def wB : RawTx := ⟨some "h1", none, some "7", none, none, none, none⟩

/-- Fixture: a record with neither a `hash` nor a `txhash` field. -/
def noHashTx : RawTx := ⟨none, none, some "5", none, none, none, none⟩

/-- Fixture: a record whose payload string decodes to no valid JSON. -/
def failTx : RawTx := ⟨some "h9", none, some "2", some (.str "%%%"), none, none, none⟩

/-- Fixture: a bank-send message moving 1000uatom from A to B. -/
def c7msg : Msg :=
  ⟨some "/cosmos.bank.v1beta1.MsgSend", none, some "A", none, none, some "B", none, none,
   some (.arr [.coinDA "uatom" "1000"]), none, none, none, none, none, none, none⟩

/-- Fixture: the transfer event describing the same movement as `c7msg`. -/
def c7event : Event :=
  ⟨some "transfer", some [⟨some "sender", some "A", none⟩, ⟨some "recipient", some "B", none⟩,
    ⟨some "amount", some "1000uatom", none⟩]⟩

/-- Fixture: a transaction carrying both the bank-send message and its
transfer event. -/
def c7tx : RawTx :=
  ⟨some "H1", none, some "1", some (.data ⟨some ⟨some [c7msg], some ""⟩, none, none, none, none⟩),
   some ⟨some [c7event], some 0⟩, none, none⟩

/-- Fixture: a transaction whose only event is a `coin_spent` by `T` with
the unparsable amount string `abc`. -/
def c8tx : RawTx :=
  ⟨some "H3", none, none, none,
   some ⟨some [⟨some "coin_spent", some [⟨some "spender", some "T", none⟩,
     ⟨some "amount", some "abc", none⟩]⟩], none⟩, none, none⟩

/-- Fixture: a transaction whose event attribute key/value `WVdKag==` is
valid base64 of the printable string `YWJj`, which is itself valid base64 of
`abc` (a doubly-decodable attribute). -/
def c9tx : RawTx :=
  ⟨some "H2", none, none, none,
   some ⟨some [⟨some "wasm", some [⟨some "WVdKag==", some "WVdKag==", none⟩]⟩], none⟩,
   none, none⟩

/-- A simulated service whose every page resolves to a single record (the
first page is short, so pagination stops there). -/
def oneRecordService (tx : RawTx) : Nat → PageResponse :=
  fun _ => .wrapped [tx] "1"

/-- A simulated service that answers every page with an error envelope. -/
def errorService : Nat → PageResponse :=
  fun _ => .errorEnv

/-- The `total_count = 200` service: two full pages, nothing afterwards. -/
def cex200Service : Nat → PageResponse :=
  pagedService (List.replicate 100 (blankTx "a")) (List.replicate 100 (blankTx "b")) []
    [blankTx "junk"] "200"

/-- A two-full-page service for the fixed (REST-file) fetcher reporting
`total_count = 200`; page 3 would serve junk, which a fetcher honouring the
total must never request. -/
def fixed200Service (r1 r2 : List RawTx) : Nat → Option FixedPage :=
  fun page =>
    if page = 1 then some ⟨some r1, some "200"⟩
    else if page = 2 then some ⟨some r2, some "200"⟩
    else some ⟨some [blankTx "junk"], some "200"⟩

/-! ### Helper lemmas (shared across the claim theorems) -/

theorem dedupGo_cons (t : RawTx) (rest : List RawTx) (s : List String) :
    dedupGo (t :: rest) s =
      match rawHash t with
      | none => dedupGo rest s
      | some h => if h ∈ s then dedupGo rest s else t :: dedupGo rest (h :: s) := rfl

theorem seenAfter_cons (t : RawTx) (rest : List RawTx) (s : List String) :
    seenAfter (t :: rest) s =
      match rawHash t with
      | none => seenAfter rest s
      | some h => if h ∈ s then seenAfter rest s else seenAfter rest (h :: s) := rfl

theorem mem_seenAfter (l : List RawTx) (s : List String) (x : String) (hx : x ∈ s) :
    x ∈ seenAfter l s := by
  induction l generalizing s with
  | nil => exact hx
  | cons t rest ih =>
    unfold seenAfter
    cases hh : rawHash t with
    | none => exact ih s hx
    | some h =>
      by_cases hs : h ∈ s
      · simp only [if_pos hs]; exact ih s hx
      · simp only [if_neg hs]; exact ih (h :: s) (List.mem_cons_of_mem _ hx)

theorem hash_mem_seenAfter (l : List RawTx) (s : List String) (tx : RawTx) (h : String)
    (htx : tx ∈ l) (hh : rawHash tx = some h) : h ∈ seenAfter l s := by
  induction l generalizing s with
  | nil => cases htx
  | cons t rest ih =>
    unfold seenAfter
    rcases List.mem_cons.mp htx with rfl | hmem
    · rw [hh]
      by_cases hs : h ∈ s
      · simp only [if_pos hs]; exact mem_seenAfter rest s h hs
      · simp only [if_neg hs]; exact mem_seenAfter rest (h :: s) h (List.mem_cons_self h s)
    · cases hr : rawHash t with
      | none => exact ih s hmem
      | some h0 =>
        by_cases hs : h0 ∈ s
        · simp only [if_pos hs]; exact ih s hmem
        · simp only [if_neg hs]; exact ih (h0 :: s) hmem

theorem dedupGo_eq_nil (l : List RawTx) (s : List String)
    (h : ∀ tx ∈ l, ∀ x, rawHash tx = some x → x ∈ s) : dedupGo l s = [] := by
  induction l with
  | nil => rfl
  | cons t rest ih =>
    unfold dedupGo
    cases hr : rawHash t with
    | none => exact ih fun tx hm x hx => h tx (List.mem_cons_of_mem _ hm) x hx
    | some h0 =>
      have h0s : h0 ∈ s := h t (List.mem_cons_self t rest) h0 hr
      simp only [if_pos h0s]
      exact ih fun tx hm x hx => h tx (List.mem_cons_of_mem _ hm) x hx

theorem dedupGo_append (a b : List RawTx) (s : List String) :
    dedupGo (a ++ b) s = dedupGo a s ++ dedupGo b (seenAfter a s) := by
  induction a generalizing s with
  | nil => rfl
  | cons t rest ih =>
    rw [List.cons_append]
    cases hr : rawHash t with
    | none =>
      simp only [dedupGo_cons, seenAfter_cons, hr]
      exact ih s
    | some h0 =>
      by_cases hs : h0 ∈ s
      · simp only [dedupGo_cons, seenAfter_cons, hr, if_pos hs]
        exact ih s
      · simp only [dedupGo_cons, seenAfter_cons, hr, if_neg hs, List.cons_append]
        rw [ih (h0 :: s)]

theorem hash_not_mem_dedupGo (l : List RawTx) (s : List String) (h : String) (hs : h ∈ s) :
    h ∉ (dedupGo l s).filterMap rawHash := by
  induction l generalizing s with
  | nil => simp [dedupGo]
  | cons t rest ih =>
    unfold dedupGo
    cases hr : rawHash t with
    | none => exact ih s hs
    | some h0 =>
      by_cases h0s : h0 ∈ s
      · simp only [if_pos h0s]; exact ih s hs
      · simp only [if_neg h0s, List.filterMap_cons, hr]
        intro hmem
        rcases List.mem_cons.mp hmem with rfl | hmem2
        · exact h0s hs
        · exact ih (h0 :: s) (List.mem_cons_of_mem _ hs) hmem2

theorem dedupGo_hash_nodup (l : List RawTx) (s : List String) :
    ((dedupGo l s).filterMap rawHash).Nodup := by
  induction l generalizing s with
  | nil => simp [dedupGo]
  | cons t rest ih =>
    unfold dedupGo
    cases hr : rawHash t with
    | none => exact ih s
    | some h0 =>
      by_cases h0s : h0 ∈ s
      · simp only [if_pos h0s]; exact ih s
      · simp only [if_neg h0s, List.filterMap_cons, hr]
        exact List.nodup_cons.mpr
          ⟨hash_not_mem_dedupGo rest (h0 :: s) h0 (List.mem_cons_self h0 s), ih (h0 :: s)⟩

theorem mem_dedupGo_hash (l : List RawTx) (s : List String) (tx : RawTx)
    (htx : tx ∈ dedupGo l s) : ∃ h, rawHash tx = some h := by
  induction l generalizing s with
  | nil => cases htx
  | cons t rest ih =>
    cases hr : rawHash t with
    | none =>
      simp only [dedupGo_cons, hr] at htx
      exact ih s htx
    | some h0 =>
      simp only [dedupGo_cons, hr] at htx
      by_cases h0s : h0 ∈ s
      · rw [if_pos h0s] at htx; exact ih s htx
      · rw [if_neg h0s] at htx
        rcases List.mem_cons.mp htx with rfl | hmem
        · exact ⟨h0, hr⟩
        · exact ih (h0 :: s) hmem

theorem mem_dedupGo_find (l : List RawTx) (s : List String) (tx : RawTx) (h : String)
    (htx : tx ∈ dedupGo l s) (hh : rawHash tx = some h) :
    h ∉ s ∧ l.find? (fun t => decide (rawHash t = some h)) = some tx := by
  induction l generalizing s with
  | nil => cases htx
  | cons t rest ih =>
    cases hr : rawHash t with
    | none =>
      simp only [dedupGo_cons, hr] at htx
      obtain ⟨hns, hfind⟩ := ih s htx
      refine ⟨hns, ?_⟩
      rw [List.find?_cons_of_neg, hfind]
      simp [hr]
    | some h0 =>
      simp only [dedupGo_cons, hr] at htx
      by_cases h0s : h0 ∈ s
      · rw [if_pos h0s] at htx
        obtain ⟨hns, hfind⟩ := ih s htx
        refine ⟨hns, ?_⟩
        rw [List.find?_cons_of_neg, hfind]
        simp only [hr, decide_eq_true_eq]
        intro hcon
        exact hns (Option.some_inj.mp hcon ▸ h0s)
      · rw [if_neg h0s] at htx
        rcases List.mem_cons.mp htx with rfl | hmem
        · rw [hh] at hr
          refine ⟨(Option.some_inj.mp hr).symm ▸ h0s, ?_⟩
          rw [List.find?_cons_of_pos]
          simp [hh]
        · obtain ⟨hns, hfind⟩ := ih (h0 :: s) hmem
          have hne : h ≠ h0 := fun e => hns (e ▸ List.mem_cons_self h0 s)
          refine ⟨fun e => hns (List.mem_cons_of_mem _ e), ?_⟩
          rw [List.find?_cons_of_neg, hfind]
          simp only [hr, decide_eq_true_eq, Option.some_inj]
          exact fun e => hne e.symm

theorem exists_mem_dedupGo (l : List RawTx) (s : List String) (tx : RawTx) (h : String)
    (htx : tx ∈ l) (hh : rawHash tx = some h) (hns : h ∉ s) :
    ∃ tx2 ∈ dedupGo l s, rawHash tx2 = some h := by
  induction l generalizing s with
  | nil => cases htx
  | cons t rest ih =>
    rcases List.mem_cons.mp htx with rfl | hmem
    · simp only [dedupGo_cons, hh, if_neg hns]
      exact ⟨tx, List.mem_cons_self tx _, hh⟩
    · cases hr : rawHash t with
      | none =>
        simp only [dedupGo_cons, hr]
        exact ih s hmem hns
      | some h0 =>
        by_cases h0s : h0 ∈ s
        · simp only [dedupGo_cons, hr, if_pos h0s]
          exact ih s hmem hns
        · simp only [dedupGo_cons, hr, if_neg h0s]
          by_cases he : h = h0
          · exact ⟨t, List.mem_cons_self t _, by rw [hr, he]⟩
          · obtain ⟨tx2, hm2, hh2⟩ := ih (h0 :: s) hmem (by
              intro hc
              rcases List.mem_cons.mp hc with rfl | hc2
              · exact he rfl
              · exact hns hc2)
            exact ⟨tx2, List.mem_cons_of_mem _ hm2, hh2⟩

theorem insertByHeightDesc_perm (x : RawTx) (l : List RawTx) :
    (insertByHeightDesc x l).Perm (x :: l) := by
  induction l with
  | nil => exact List.Perm.refl _
  | cons y ys ih =>
    unfold insertByHeightDesc
    by_cases hc : heightKey y < heightKey x
    · rw [if_pos hc]
    · rw [if_neg hc]
      exact (List.Perm.cons y ih).trans (List.Perm.swap x y ys)

theorem sortByHeightDesc_perm (l : List RawTx) : (sortByHeightDesc l).Perm l := by
  induction l with
  | nil => exact List.Perm.refl _
  | cons x xs ih =>
    exact (insertByHeightDesc_perm x (sortByHeightDesc xs)).trans (List.Perm.cons x ih)

/-! ### Claim theorems -/

/-- C1: `deduplicateTransactions` yields exactly one record per distinct
hash, the hash being read as the source reads it (`tx.hash || tx.txhash`):
the hashes of the output are pairwise distinct (`Nodup`), every hash
present in the input is represented in the output, the record kept for a
hash is the first record of the input carrying it (`find?`), and
deduplicating the concatenation of a list with itself gives exactly the
deduplication of the list once. -/
theorem c1_dedup_first_wins (l : List RawTx) :
    deduplicateTransactions (l ++ l) = deduplicateTransactions l
    ∧ ((deduplicateTransactions l).filterMap rawHash).Nodup
    ∧ (∀ tx ∈ deduplicateTransactions l, ∀ h, rawHash tx = some h →
        l.find? (fun t => decide (rawHash t = some h)) = some tx)
    ∧ (∀ h, (∃ tx ∈ l, rawHash tx = some h) →
        ∃ tx ∈ deduplicateTransactions l, rawHash tx = some h) := by
  refine ⟨?_, dedupGo_hash_nodup l [], ?_, ?_⟩
  · show dedupGo (l ++ l) [] = dedupGo l []
    rw [dedupGo_append,
      dedupGo_eq_nil l (seenAfter l []) (fun tx hm x hx => hash_mem_seenAfter l [] tx x hm hx),
      List.append_nil]
  · intro tx htx h hh
    exact (mem_dedupGo_find l [] tx h htx hh).2
  · intro h hex
    obtain ⟨tx, hm, hh⟩ := hex
    exact exists_mem_dedupGo l [] tx h hm hh (by simp)

/-- C1 witness: on the concrete list `[wA, wB]` (two records sharing hash
`h1`), self-concatenation deduplicates to the same list, the kept record is
the first occurrence `wA`, and the hash is represented. -/
theorem c1_dedup_first_wins_witness :
    [wA, wB].find? (fun t => decide (rawHash t = some "h1")) = some wA
    ∧ deduplicateTransactions ([wA, wB] ++ [wA, wB]) = deduplicateTransactions [wA, wB]
    ∧ ∃ tx ∈ deduplicateTransactions [wA, wB], rawHash tx = some "h1" := by
  obtain ⟨h1, _, h3, h4⟩ := c1_dedup_first_wins [wA, wB]
  have hm : wA ∈ deduplicateTransactions [wA, wB] := by
    rw [show deduplicateTransactions [wA, wB] = [wA] from rfl]
    exact List.mem_singleton.mpr rfl
  exact ⟨h3 wA hm "h1" (by rfl), h1, h4 "h1" ⟨wA, List.mem_cons_self wA _, by rfl⟩⟩

/-- C10: a record whose hash key (`tx.hash || tx.txhash`) is absent is
silently dropped by `deduplicateTransactions` — it never appears in the
output — and consequently every entry of the set returned by
`fetchAllTransactions` carries a hash. -/
theorem c10_hashless_records_dropped (l : List RawTx) (tx : RawTx) :
    (tx ∈ deduplicateTransactions l → ∃ h, rawHash tx = some h)
    ∧ (rawHash tx = none → tx ∉ deduplicateTransactions l)
    ∧ (∀ (services : List (Nat → PageResponse)) (fuel : Nat),
        tx ∈ fetchAllTransactions services fuel → ∃ h, rawHash tx = some h) := by
  refine ⟨fun htx => mem_dedupGo_hash l [] tx htx, ?_, ?_⟩
  · intro hnone htx
    obtain ⟨h, hh⟩ := mem_dedupGo_hash l [] tx htx
    rw [hnone] at hh
    cases hh
  · intro services fuel htx
    have hperm := sortByHeightDesc_perm
      (deduplicateTransactions ((services.map fun s => queryRecords s fuel).flatten))
    exact mem_dedupGo_hash _ [] tx (hperm.mem_iff.mp htx)

/-- C10 witness: the concrete hashless record is dropped, and the entry of
a concrete `fetchAllTransactions` run has a hash. -/
theorem c10_hashless_records_dropped_witness :
    noHashTx ∉ deduplicateTransactions [noHashTx, wA]
    ∧ ∃ h, rawHash wA = some h := by
  obtain ⟨_, h2, _⟩ := c10_hashless_records_dropped [noHashTx, wA] noHashTx
  obtain ⟨_, _, h3w⟩ := c10_hashless_records_dropped [] wA
  refine ⟨h2 (by rfl), h3w [oneRecordService wA] 1 ?_⟩
  rw [show fetchAllTransactions [oneRecordService wA] 1 = [wA] from rfl]
  exact List.mem_singleton.mpr rfl

theorem queryGo_page_full (service : Nat → PageResponse) (fuel page : Nat)
    (txs : List RawTx) (tc : String)
    (hsv : service page = .wrapped txs tc) (hlen : txs.length = 100) :
    queryGo service (fuel + 1) page =
      (txs ++ (queryGo service fuel (page + 1)).1, (queryGo service fuel (page + 1)).2 + 1) := by
  simp [queryGo, hsv, hlen]

theorem queryGo_page_short (service : Nat → PageResponse) (fuel page : Nat)
    (txs : List RawTx) (tc : String)
    (hsv : service page = .wrapped txs tc) (h0 : txs.length ≠ 0) (h100 : txs.length ≠ 100) :
    queryGo service (fuel + 1) page = (txs, 1) := by
  simp [queryGo, hsv, h0, h100]

theorem queryRecords_of_fail (service : Nat → PageResponse) (fuel : Nat)
    (h : service 1 = .netFail ∨ service 1 = .errorEnv) :
    queryRecords service fuel = [] := by
  cases fuel with
  | zero => rfl
  | succ n =>
    show (queryGo service (n + 1) 1).1 = []
    rcases h with h | h
    · simp [queryGo, h]
    · simp [queryGo, h]

theorem flatten_nil_of_all_nil (L : List (List RawTx)) (h : ∀ l ∈ L, l = []) :
    L.flatten = [] := by
  induction L with
  | nil => rfl
  | cons x xs ih =>
    rw [List.flatten_cons, h x (List.mem_cons_self x xs), List.nil_append]
    exact ih fun l hl => h l (List.mem_cons_of_mem _ hl)

/-- C3: against a simulated service reporting `total_count = 250` that
serves two full pages of 100 and a third page of 50, `queryTxsByEvent`
issues exactly 3 page requests and returns the 250 records in page order —
whatever further pages the service would serve (`junk`) and however much
fuel beyond the three pages the loop is allowed. -/
theorem c3_pagination_terminates_250 (r1 r2 r3 junk : List RawTx) (fuel : Nat)
    (h1 : r1.length = 100) (h2 : r2.length = 100) (h3 : r3.length = 50) :
    queryTxsByEvent (pagedService r1 r2 r3 junk "250") (fuel + 3) = (r1 ++ r2 ++ r3, 3) := by
  show queryGo (pagedService r1 r2 r3 junk "250") (fuel + 3) 1 = _
  rw [show queryGo (pagedService r1 r2 r3 junk "250") (fuel + 3) 1 =
      (r1 ++ (queryGo (pagedService r1 r2 r3 junk "250") (fuel + 2) 2).1,
       (queryGo (pagedService r1 r2 r3 junk "250") (fuel + 2) 2).2 + 1) from
    queryGo_page_full _ (fuel + 2) 1 r1 "250" rfl h1]
  rw [show queryGo (pagedService r1 r2 r3 junk "250") (fuel + 2) 2 =
      (r2 ++ (queryGo (pagedService r1 r2 r3 junk "250") (fuel + 1) 3).1,
       (queryGo (pagedService r1 r2 r3 junk "250") (fuel + 1) 3).2 + 1) from
    queryGo_page_full _ (fuel + 1) 2 r2 "250" rfl h2]
  rw [queryGo_page_short _ fuel 3 r3 "250" rfl (by rw [h3]; decide) (by rw [h3]; decide)]
  rw [List.append_assoc]

/-- C3 witness: the scenario at concrete pages and fuel 10. -/
theorem c3_pagination_terminates_250_witness :
    queryTxsByEvent (pagedService (List.replicate 100 wA) (List.replicate 100 wB)
        (List.replicate 50 noHashTx) [blankTx "junk"] "250") 10 =
      (List.replicate 100 wA ++ List.replicate 100 wB ++ List.replicate 50 noHashTx, 3) :=
  c3_pagination_terminates_250 _ _ _ _ 7 (by simp) (by simp) (by simp)

/-- C4 counterexample: against a service reporting `total_count = 200` and
two full pages of 100, `queryTxsByEvent` has collected the full reported
total after its 2nd page request, yet it issues a 3rd page request (which
returns zero records) — the claim says pagination stops as soon as the
reported total count is reached, i.e. after at most 2 requests. -/
theorem c4_counterexample :
    (queryTxsByEvent cex200Service 10).2 = 3
    ∧ ¬ (queryTxsByEvent cex200Service 10).2 ≤ 2 := by
  have h : (queryTxsByEvent cex200Service 10).2 = 3 := by rfl
  refine ⟨h, ?_⟩
  rw [h]
  decide

theorem fixedPagesGo_continue (service : Nat → Option FixedPage) (fuel page : Nat)
    (pr : FixedPage) (txs : List RawTx)
    (hsv : service page = some pr) (htxs : pr.txs = some txs)
    (hlen : txs.length = 100) (hpage : page < fixedTotalPages pr) :
    fixedPagesGo service (fuel + 1) page =
      (txs ++ (fixedPagesGo service fuel (page + 1)).1,
       (fixedPagesGo service fuel (page + 1)).2 + 1) := by
  simp [fixedPagesGo, hsv, htxs, hlen, hpage]

/-- C4 (amended): the pagination of `fetchWalletTransactions`
(`fixedRPCFetcher.js`) is the one that stops as soon as any of the three
conditions holds — a null result, a zero-record page, a short page, or the
page index having reached `Math.ceil(total_count / 100)` — and in
particular on a `total_count = 200` service with full pages of 100 it
issues exactly 2 page requests and no 3rd (`queryTxsByEvent` of
`fetchAllTransactions.js`, by contrast, never consults the total count:
see the counterexample). -/
theorem c4_fixed_fetcher_stops (service : Nat → Option FixedPage) (fuel page : Nat) :
    (service page = none → fixedPagesGo service (fuel + 1) page = ([], 1))
    ∧ (∀ pr txs, service page = some pr → pr.txs = some txs →
        txs.length = 0 → fixedPagesGo service (fuel + 1) page = ([], 1))
    ∧ (∀ pr txs, service page = some pr → pr.txs = some txs →
        txs.length ≠ 0 → txs.length ≠ 100 → fixedPagesGo service (fuel + 1) page = (txs, 1))
    ∧ (∀ pr txs, service page = some pr → pr.txs = some txs →
        txs.length ≠ 0 → ¬ page < fixedTotalPages pr →
        fixedPagesGo service (fuel + 1) page = (txs, 1))
    ∧ (∀ (r1 r2 : List RawTx), r1.length = 100 → r2.length = 100 →
        fixedPagesGo (fixed200Service r1 r2) (fuel + 2) 1 = (r1 ++ r2, 2)) := by
  refine ⟨?_, ?_, ?_, ?_, ?_⟩
  · intro hsv
    simp [fixedPagesGo, hsv]
  · intro pr txs hsv htxs hlen
    simp [fixedPagesGo, hsv, htxs, hlen]
  · intro pr txs hsv htxs h0 h100
    simp [fixedPagesGo, hsv, htxs, h0, h100]
  · intro pr txs hsv htxs h0 hpage
    simp [fixedPagesGo, hsv, htxs, h0, hpage]
  · intro r1 r2 hl1 hl2
    have tp1 : fixedTotalPages ⟨some r1, some "200"⟩ = 2 := rfl
    have tp2 : fixedTotalPages ⟨some r2, some "200"⟩ = 2 := rfl
    rw [show fixedPagesGo (fixed200Service r1 r2) (fuel + 2) 1 =
        (r1 ++ (fixedPagesGo (fixed200Service r1 r2) (fuel + 1) 2).1,
         (fixedPagesGo (fixed200Service r1 r2) (fuel + 1) 2).2 + 1) from
      fixedPagesGo_continue _ (fuel + 1) 1 ⟨some r1, some "200"⟩ r1 rfl rfl hl1
        (by rw [tp1]; decide)]
    have hstop : fixedPagesGo (fixed200Service r1 r2) (fuel + 1) 2 = (r2, 1) := by
      have s2 : fixed200Service r1 r2 2 = some ⟨some r2, some "200"⟩ := rfl
      simp [fixedPagesGo, s2, hl2, tp2]
    rw [hstop]

/-- C4 amended-claim witness: the fixed fetcher issues exactly 2 requests
on the concrete `total_count = 200` service, and stops on a null page. -/
theorem c4_fixed_fetcher_stops_witness :
    fixedPagesGo (fixed200Service (List.replicate 100 wA) (List.replicate 100 wB)) 10 1 =
      (List.replicate 100 wA ++ List.replicate 100 wB, 2)
    ∧ fixedPagesGo (fun _ => none) 5 1 = ([], 1) := by
  obtain ⟨_, _, _, _, he⟩ := c4_fixed_fetcher_stops (fixed200Service (List.replicate 100 wA)
    (List.replicate 100 wB)) 8 1
  obtain ⟨ha, _, _, _, _⟩ := c4_fixed_fetcher_stops (fun _ => none) 4 1
  exact ⟨he _ _ (by simp) (by simp), ha rfl⟩

/-- C2: per-query failures do not disturb the other queries.
`fetchAllTransactions` always returns (a height-sorted permutation of) the
deduplicated union of the records of its queries; a query whose first page
request fails (thrown fetch after retry exhaustion, or an error envelope)
contributes zero records; appending any set of such failing queries leaves
the result exactly unchanged; and when some successful query contributed a
hashed record the result is non-empty. -/
theorem c2_partial_failure_union (services : List (Nat → PageResponse)) (fuel : Nat) :
    (fetchAllTransactions services fuel).Perm
      (deduplicateTransactions ((services.map fun s => queryRecords s fuel).flatten))
    ∧ (∀ s ∈ services, s 1 = .netFail ∨ s 1 = .errorEnv → queryRecords s fuel = [])
    ∧ (∀ bad : List (Nat → PageResponse), (∀ s ∈ bad, s 1 = .netFail ∨ s 1 = .errorEnv) →
        fetchAllTransactions (services ++ bad) fuel = fetchAllTransactions services fuel)
    ∧ ((∃ s ∈ services, ∃ tx ∈ queryRecords s fuel, ∃ h, rawHash tx = some h) →
        fetchAllTransactions services fuel ≠ []) := by
  refine ⟨sortByHeightDesc_perm _, fun s _ h => queryRecords_of_fail s fuel h, ?_, ?_⟩
  · intro bad hbad
    show sortByHeightDesc (deduplicateTransactions
      (((services ++ bad).map fun s => queryRecords s fuel).flatten)) = _
    rw [List.map_append, List.flatten_append,
      flatten_nil_of_all_nil (bad.map fun s => queryRecords s fuel)
        (fun l hl => by
          obtain ⟨s, hs, rfl⟩ := List.mem_map.mp hl
          exact queryRecords_of_fail s fuel (hbad s hs)),
      List.append_nil]
    rfl
  · rintro ⟨s, hs, tx, htx, h, hh⟩
    have hmem : tx ∈ (services.map fun s => queryRecords s fuel).flatten :=
      List.mem_flatten.mpr ⟨queryRecords s fuel, List.mem_map_of_mem _ hs, htx⟩
    obtain ⟨tx2, hm2, _⟩ := exists_mem_dedupGo _ [] tx h hmem hh (by simp)
    intro hempty
    have hms : tx2 ∈ fetchAllTransactions services fuel :=
      (sortByHeightDesc_perm _).mem_iff.mpr hm2
    rw [hempty] at hms
    cases hms

/-- C2 witness: one succeeding query and one always-erroring query — the
failing query contributes nothing and leaves the result exactly as without
it, which is non-empty. -/
theorem c2_partial_failure_union_witness :
    queryRecords errorService 5 = []
    ∧ fetchAllTransactions ([oneRecordService wA] ++ [errorService]) 5 =
        fetchAllTransactions [oneRecordService wA] 5
    ∧ fetchAllTransactions [oneRecordService wA, errorService] 5 ≠ [] := by
  obtain ⟨_, h2, _, h4⟩ := c2_partial_failure_union [oneRecordService wA, errorService] 5
  obtain ⟨_, _, h3, _⟩ := c2_partial_failure_union [oneRecordService wA] 5
  refine ⟨h2 errorService (List.mem_cons_of_mem _ (List.mem_cons_self _ _)) (Or.inr rfl),
    h3 [errorService] (fun s hs => ?_), h4 ?_⟩
  · rw [List.mem_singleton.mp hs]
    exact Or.inr rfl
  · refine ⟨oneRecordService wA, List.mem_cons_self _ _, wA, ?_, "h1", rfl⟩
    rw [show queryRecords (oneRecordService wA) 5 = [wA] from rfl]
    exact List.mem_singleton.mpr rfl

/-- C5: `parseTransaction` is total (every record yields a parsed value),
and on a payload string whose decoded form fails JSON parsing the affected
fields take their defaults — messages `[]`, memo `''`, fee `null` — while
with no result wrapper present under any of its alternate names the code
defaults to 0 and success to `true`; `success` is always derived from
`code`. -/
theorem c5_parse_total_defaults (jp : String → Option TxData) (tx : RawTx) (s : String)
    (hpay : tx.tx = some (.str s))
    (hfail : jp (bytesToString (base64DecodeBytes s)) = none) :
    ((parseTransaction jp tx).1.messages = []
      ∧ (parseTransaction jp tx).1.memo = some ""
      ∧ (parseTransaction jp tx).1.fee = none)
    ∧ (tx.tx_result = none → tx.result = none → tx.TxResult = none →
        (parseTransaction jp tx).1.code = 0 ∧ (parseTransaction jp tx).1.success = true)
    ∧ (parseTransaction jp tx).1.success = decide ((parseTransaction jp tx).1.code = 0) := by
  refine ⟨by simp [parseTransaction, hpay, hfail], ?_, by simp [parseTransaction]⟩
  intro h1 h2 h3
  simp [parseTransaction, rawResultW, h1, h2, h3]

/-- C5 witness: the concrete record with undecodable payload `%%%` and no
result wrapper. -/
theorem c5_parse_total_defaults_witness :
    (parseTransaction jsonParseNone failTx).1.messages = []
    ∧ (parseTransaction jsonParseNone failTx).1.memo = some ""
    ∧ (parseTransaction jsonParseNone failTx).1.fee = none
    ∧ (parseTransaction jsonParseNone failTx).1.code = 0
    ∧ (parseTransaction jsonParseNone failTx).1.success = true := by
  obtain ⟨⟨m, mm, f⟩, hcs, _⟩ := c5_parse_total_defaults jsonParseNone failTx "%%%" rfl rfl
  obtain ⟨hc, hs⟩ := hcs rfl rfl rfl
  exact ⟨m, mm, f, hc, hs⟩

/-- C6 counterexample: the claim promises that any attribute whose key
contains whitespace is returned unchanged, but the source only tests for
the space character (`key.includes(' ')`): the key `c2VuZGVy\t` contains a
tab — whitespace — yet the attribute is replaced by its decoded form (the
tab is skipped by base64 decoding and the key decodes to printable
`sender`). -/
theorem c6_counterexample :
    ('\t' ∈ "c2VuZGVy\t".data ∧ '\t'.isWhitespace = true)
    ∧ decodeAttr ⟨some "c2VuZGVy\t", some "YQ==", none⟩ = ⟨some "sender", some "a", none⟩
    ∧ decodeAttr ⟨some "c2VuZGVy\t", some "YQ==", none⟩
        ≠ ⟨some "c2VuZGVy\t", some "YQ==", none⟩ := by
  refine ⟨⟨by decide, rfl⟩, by rfl, ?_⟩
  intro h
  have hk : (some "sender" : Option String) = some "c2VuZGVy\t" := congrArg Attr.key h
  exact absurd hk (by decide)

/-- C6 (amended): with "contains no whitespace" corrected to "does not
contain the space character U+0020" (the source tests `key.includes(' ')`
only), the rule holds: for a truthy string key without a space, the
attribute is replaced by the decoded pair exactly when the decoded key is
non-empty and printable ASCII, and otherwise — as well as for an absent,
empty, or space-containing key — it is returned unchanged; the two concrete
examples of the claim behave as stated. -/
theorem c6_attr_decode_rule (a : Attr) :
    (a.key = none → decodeAttr a = a)
    ∧ (∀ k, a.key = some k → k = "" ∨ ' ' ∈ k.data → decodeAttr a = a)
    ∧ (∀ k, a.key = some k → k ≠ "" → ' ' ∉ k.data →
        ((bytesToString (base64DecodeBytes k) ≠ ""
            ∧ printableAscii (bytesToString (base64DecodeBytes k)) = true →
          decodeAttr a = ⟨some (bytesToString (base64DecodeBytes k)),
            some (decodedValue a.value), a.index⟩)
        ∧ (¬ (bytesToString (base64DecodeBytes k) ≠ ""
            ∧ printableAscii (bytesToString (base64DecodeBytes k)) = true) →
          decodeAttr a = a)))
    ∧ decodeAttr ⟨some "c2VuZGVy", some "Y29zbW9zMWFiYw==", none⟩
        = ⟨some "sender", some "cosmos1abc", none⟩
    ∧ decodeAttr ⟨some "already plain", some "x", none⟩
        = ⟨some "already plain", some "x", none⟩ := by
  refine ⟨?_, ?_, ?_, by rfl, by rfl⟩
  · intro hk
    simp [decodeAttr, hk]
  · intro k hk hbad
    rcases hbad with rfl | hsp
    · simp [decodeAttr, hk]
    · simp [decodeAttr, hk, hsp]
  · intro k hk hne hsp
    constructor
    · rintro ⟨h1, h2⟩
      simp only [decodeAttr, hk]
      rw [if_pos ⟨hne, hsp⟩, if_pos ⟨h1, h2⟩]
    · intro hno
      simp only [decodeAttr, hk]
      rw [if_pos ⟨hne, hsp⟩, if_neg hno]

/-- C6 amended-claim witness: the rule applied at the claim's two concrete
attributes. -/
theorem c6_attr_decode_rule_witness :
    decodeAttr ⟨some "c2VuZGVy", some "Y29zbW9zMWFiYw==", none⟩
      = ⟨some (bytesToString (base64DecodeBytes "c2VuZGVy")),
         some (decodedValue (some "Y29zbW9zMWFiYw==")), none⟩
    ∧ decodeAttr ⟨some "already plain", some "x", none⟩
      = ⟨some "already plain", some "x", none⟩ := by
  obtain ⟨_, _, hrule, _, _⟩ := c6_attr_decode_rule ⟨some "c2VuZGVy", some "Y29zbW9zMWFiYw==", none⟩
  obtain ⟨_, hsp, _, _, _⟩ := c6_attr_decode_rule ⟨some "already plain", some "x", none⟩
  exact ⟨(hrule "c2VuZGVy" rfl (by decide) (by decide)).1 ⟨by decide, by rfl⟩,
    hsp "already plain" rfl (Or.inr (by decide))⟩

/-- C7 (code bug): the `isDuplicate` check of the `transfer`-event branch
compares `JSON.stringify(t.amount)` — for a message-derived transfer, the
stringified coin ARRAY — against `JSON.stringify(amount)` of the raw event
attribute STRING; an array stringification (starting `[`) can never equal a
string stringification (starting `"`), so a bank-send message and the
transfer event describing the same movement produce TWO transfers, not one,
contrary to the code's own `// Avoid duplicates from message parsing`
comment and the spec.  At the concrete record `c7tx` (MsgSend A→B of
1000uatom plus the matching transfer event), `extractTransfers` returns
both. -/
theorem c7_event_duplicate_not_skipped :
    extractTransfers jsonParseNone c7tx "A" =
      some [⟨"bank_send", "A", "B", some (.arr [.coinDA "uatom" "1000"]), none, "sent"⟩,
            ⟨"transfer_event", "A", "B", some (.arr [.coinAD "1000" "uatom"]), none, "sent"⟩]
    ∧ stringifyOpt (some (JsV.arr [.coinDA "uatom" "1000"]))
        ≠ some (stringifyV (.str "1000uatom")) := by
  exact ⟨by rfl, by decide⟩

/-- C8 counterexample: `parseAmount` passes a segment that does not match
the digit-then-denom pattern through as the raw string, so an Amount list
leaving `extractTransfers` can contain a bare unparsed string rather than
only `{denom, amount}` pairs — at `c8tx` (a `coin_spent` event by `T` with
amount `abc`) the extracted transfer carries the raw string. -/
theorem c8_counterexample :
    parseAmount "abc" = [.str "abc"]
    ∧ (parseAmount "abc").all isDenomAmountPair = false
    ∧ extractTransfers jsonParseNone c8tx "T" =
        some [⟨"coin_spent", "T", "unknown", some (.arr [.str "abc"]), none, "sent"⟩] := by
  exact ⟨by rfl, by rfl, by rfl⟩

theorem parseAmountSeg_shape (seg : String) :
    isDenomAmountPair (parseAmountSeg seg) = true ∨ parseAmountSeg seg = .str (jsTrim seg) := by
  simp only [parseAmountSeg]
  split
  · left; rfl
  · right; rfl

/-- C8 (amended): every element of `parseAmount s` is either an
`{amount, denom}` pair (for a segment matching the digit-then-denom
pattern) or the raw trimmed segment string, passed through unparsed; the
Amount lists leaving the extractor may therefore contain such raw strings
for unparsable segments. -/
theorem c8_amount_pair_or_raw (s : String) :
    ∀ e ∈ parseAmount s, isDenomAmountPair e = true
      ∨ ∃ seg ∈ splitComma s.data, e = .str (jsTrim (String.mk seg)) := by
  intro e he
  simp only [parseAmount] at he
  by_cases hs : s = ""
  · rw [if_pos hs] at he
    cases he
  · rw [if_neg hs] at he
    obtain ⟨seg, hseg, rfl⟩ := List.mem_map.mp he
    rcases parseAmountSeg_shape (String.mk seg) with h | h
    · exact Or.inl h
    · exact Or.inr ⟨seg, hseg, h⟩

/-- C8 amended-claim witness: applied at `1000uatom,abc`, whose second
element is the raw pass-through of the unmatched segment. -/
theorem c8_amount_pair_or_raw_witness :
    isDenomAmountPair (JsV.str "abc") = true
      ∨ ∃ seg ∈ splitComma "1000uatom,abc".data,
          JsV.str "abc" = .str (jsTrim (String.mk seg)) := by
  apply c8_amount_pair_or_raw "1000uatom,abc"
  rw [show parseAmount "1000uatom,abc" = [.coinAD "1000" "uatom", .str "abc"] from rfl]
  exact List.mem_cons_of_mem _ (List.mem_cons_self _ _)

/-- C9 counterexample: `parseTransaction` is not free of effects on its
input: the in-place `event.attributes = …` writes the decoded attributes
back into the raw record, so the record's nested attribute lists change
(`WVdKag==` becomes `YWJj`), and a second call on the same — now mutated —
record re-decodes them (`YWJj` becomes `abc`) and returns a different
parsed result. -/
theorem c9_counterexample :
    attrKeyObs ((parseTransaction jsonParseNone c9tx).2) = some "YWJj"
    ∧ attrKeyObs c9tx = some "WVdKag=="
    ∧ (parseTransaction jsonParseNone c9tx).2 ≠ c9tx
    ∧ parsedKeyObs (parseTransaction jsonParseNone c9tx).1 = some "YWJj"
    ∧ parsedKeyObs (parseTransaction jsonParseNone ((parseTransaction jsonParseNone c9tx).2)).1
        = some "abc"
    ∧ (parseTransaction jsonParseNone ((parseTransaction jsonParseNone c9tx).2)).1
        ≠ (parseTransaction jsonParseNone c9tx).1 := by
  refine ⟨by rfl, by rfl, ?_, by rfl, by rfl, ?_⟩
  · intro h
    have hk : (some "YWJj" : Option String) = some "WVdKag==" := congrArg attrKeyObs h
    exact absurd hk (by decide)
  · intro h
    have hk : (some "abc" : Option String) = some "YWJj" := congrArg parsedKeyObs h
    exact absurd hk (by decide)

/-- C9 (amended): the parsed result is a deterministic function of the raw
record, but the record is not left unchanged: the call replaces the first
present result wrapper's events by their attribute-decoded forms
(`decodeWrapper`), leaves every other field of the record intact, and
returns a record with no result wrapper entirely unchanged (on such records
repeated calls agree). -/
theorem c9_mutation_frame (jp : String → Option TxData) (tx : RawTx) :
    ((parseTransaction jp tx).2.hash = tx.hash
     ∧ (parseTransaction jp tx).2.txhash = tx.txhash
     ∧ (parseTransaction jp tx).2.height = tx.height
     ∧ (parseTransaction jp tx).2.tx = tx.tx)
    ∧ (∀ w, tx.tx_result = some w → (parseTransaction jp tx).2.tx_result = some (decodeWrapper w))
    ∧ (tx.tx_result = none → ∀ w, tx.result = some w →
        (parseTransaction jp tx).2.result = some (decodeWrapper w))
    ∧ (tx.tx_result = none → tx.result = none → ∀ w, tx.TxResult = some w →
        (parseTransaction jp tx).2.TxResult = some (decodeWrapper w))
    ∧ (tx.tx_result = none → tx.result = none → tx.TxResult = none →
        (parseTransaction jp tx).2 = tx) := by
  obtain ⟨f1, f2, f3, f4, w1, w2, w3⟩ := tx
  cases w1 with
  | some w =>
    refine ⟨⟨rfl, rfl, rfl, rfl⟩, ?_, ?_, ?_, ?_⟩
    · intro w' hw
      cases hw
      rfl
    · intro h
      cases h
    · intro h
      cases h
    · intro h
      cases h
  | none =>
    cases w2 with
    | some w =>
      refine ⟨⟨rfl, rfl, rfl, rfl⟩, ?_, ?_, ?_, ?_⟩
      · intro w' hw
        cases hw
      · intro _ w' hw
        cases hw
        rfl
      · intro _ h
        cases h
      · intro _ h
        cases h
    | none =>
      cases w3 with
      | some w =>
        refine ⟨⟨rfl, rfl, rfl, rfl⟩, ?_, ?_, ?_, ?_⟩
        · intro w' hw
          cases hw
        · intro _ w' hw
          cases hw
        · intro _ _ w' hw
          cases hw
          rfl
        · intro _ _ h
          cases h
      | none =>
        refine ⟨⟨rfl, rfl, rfl, rfl⟩, ?_, ?_, ?_, fun _ _ _ => rfl⟩
        · intro w' hw
          cases hw
        · intro _ w' hw
          cases hw
        · intro _ _ w' hw
          cases hw

/-- C9 amended-claim witness: the frame property at the concrete mutated
record and at a wrapperless record. -/
theorem c9_mutation_frame_witness :
    (parseTransaction jsonParseNone c9tx).2.hash = c9tx.hash
    ∧ (parseTransaction jsonParseNone c9tx).2.tx_result =
        some (decodeWrapper
          ⟨some [⟨some "wasm", some [⟨some "WVdKag==", some "WVdKag==", none⟩]⟩], none⟩)
    ∧ (parseTransaction jsonParseNone noHashTx).2 = noHashTx := by
  obtain ⟨⟨hh, _, _, _⟩, h2, _, _, _⟩ := c9_mutation_frame jsonParseNone c9tx
  obtain ⟨_, _, _, _, h5⟩ := c9_mutation_frame jsonParseNone noHashTx
  exact ⟨hh, h2 _ rfl, h5 rfl rfl rfl⟩
